import Mathlib

/-!
# Motor driver (`Software/libraries/Motor/Motor.cpp`)

A shallow embedding of the `Motor` class: the object state is a record, the
Arduino hardware primitives `pinMode`, `digitalWrite` and `analogWrite` are
state transformers on a `Hardware` record that logs every call in order, and
the fixed-width C++ integer arithmetic is made explicit with `wrapInt`.
-/

/-- Logic level handed to `digitalWrite` (the Arduino constants `LOW` and `HIGH`). -/
inductive Level where
  | LOW
  | HIGH
deriving DecidableEq

/-- Pin configuration handed to `pinMode` (the Arduino mode constants). -/
inductive PinMode where
  | INPUT
  | OUTPUT
  | INPUT_PULLUP
deriving DecidableEq

/-- One call of a hardware primitive, with the arguments as the driver passes them. -/
inductive HwCall where
  | pinMode (pin : Int) (mode : PinMode)
  | digitalWrite (pin : Int) (val : Level)
  | analogWrite (pin : Int) (val : Int)
deriving DecidableEq

/-- Hardware as seen by the driver: the mode every pin was last configured
with through `pinMode`, and the log of all primitive calls, oldest first. -/
structure Hardware where
  modes : Int → PinMode
  trace : List HwCall

/-- Primitive `pinMode(pin, mode)`: sets the mode of `pin` and logs the call. -/
def pinMode (hw : Hardware) (pin : Int) (mode : PinMode) : Hardware :=
  { modes := fun p => if p = pin then mode else hw.modes p
    trace := hw.trace ++ [HwCall.pinMode pin mode] }

/-- Primitive `digitalWrite(pin, val)`: logs the call. -/
def digitalWrite (hw : Hardware) (pin : Int) (val : Level) : Hardware :=
  { hw with trace := hw.trace ++ [HwCall.digitalWrite pin val] }

/-- Primitive `analogWrite(pin, val)`: logs the call. -/
def analogWrite (hw : Hardware) (pin : Int) (val : Int) : Hardware :=
  { hw with trace := hw.trace ++ [HwCall.analogWrite pin val] }

/-- The calls logged between the hardware state `before` and the later state `after`. -/
def issued (before after : Hardware) : List HwCall :=
  after.trace.drop before.trace.length

/-- Two's-complement wrap of `x` into a signed integer of `bits` bits. -/
def wrapInt (bits : Nat) (x : Int) : Int :=
  (x + 2 ^ (bits - 1)) % 2 ^ bits - 2 ^ (bits - 1)

/-- Object state of a `Motor`: the three pin identifiers and the `negative` flag. -/
structure Motor where
  INA : Int
  INB : Int
  PWM : Int
  negative : Bool
deriving DecidableEq

namespace Motor

/-- Constructor `Motor::Motor` (lines 11-15): the three assignments
`this->INA = INA`, `this->INB = INB`, `this->PWM = PWM`. The member `negative`
is not assigned by the constructor, so its initial value `negative` is an
input of the model; the hardware state is threaded through untouched. -/
protected def Motor (INA INB PWM : Int) (negative : Bool) (hw : Hardware) :
    Motor × Hardware :=
  ({ INA := INA, INB := INB, PWM := PWM, negative := negative }, hw)

/-- `Motor::begin` (lines 17-21): three `pinMode(_, OUTPUT)` calls. -/
def begin (m : Motor) (hw : Hardware) : Motor × Hardware :=
  let hw := pinMode hw m.INA PinMode.OUTPUT
  let hw := pinMode hw m.INB PinMode.OUTPUT
  let hw := pinMode hw m.PWM PinMode.OUTPUT
  (m, hw)

/-- Lines 25-30 of `Motor::setDutyCycle`: a negative `dutyCycle` is multiplied
by `-1` (computed in `int` of `intBits` bits, stored back into the `int16_t`
parameter) and `negative` is set; otherwise `negative` is cleared. Returns the
new `dutyCycle` and the new `negative`. -/
def normalize (intBits : Nat) (dutyCycle : Int) : Int × Bool :=
  if dutyCycle < 0 then
    (wrapInt 16 (wrapInt intBits (dutyCycle * -1)), true)
  else
    (dutyCycle, false)

/-- Lines 33-35 of `Motor::setDutyCycle`: `if (dutyCycle > 100) dutyCycle = 100`. -/
def saturate (dutyCycle : Int) : Int :=
  if dutyCycle > 100 then 100 else dutyCycle

/-- The expression `dutyCycle * 255 / 100` of line 38, evaluated in `int` of
`intBits` bits with C++ division (truncation toward zero). -/
def scale (intBits : Nat) (dutyCycle : Int) : Int :=
  wrapInt intBits (Int.tdiv (wrapInt intBits (dutyCycle * 255)) 100)

/-- The value of the local `dutyCycle` after lines 25-35 (sign extraction and saturation). -/
def magnitude (intBits : Nat) (dutyCycle : Int) : Int :=
  saturate (normalize intBits dutyCycle).1

/-- `Motor::setDutyCycle` (lines 23-53). `intBits` is the width of the
platform type `int`; `dutyCycle` is the `int16_t` argument. -/
def setDutyCycle (intBits : Nat) (m : Motor) (hw : Hardware) (dutyCycle : Int) :
    Motor × Hardware :=
  let m := { m with negative := (normalize intBits dutyCycle).2 }
  let dutyCycle := saturate (normalize intBits dutyCycle).1
  let hw := analogWrite hw m.PWM (scale intBits dutyCycle)
  if dutyCycle = 0 then
    let hw := digitalWrite hw m.INA Level.LOW
    let hw := digitalWrite hw m.INB Level.LOW
    (m, hw)
  else if m.negative then
    let hw := digitalWrite hw m.INA Level.LOW
    let hw := digitalWrite hw m.INB Level.HIGH
    (m, hw)
  else
    let hw := digitalWrite hw m.INA Level.HIGH
    let hw := digitalWrite hw m.INB Level.LOW
    (m, hw)

end Motor

/-- A hardware state with every pin an input and an empty log. -/
def Hardware.reset : Hardware :=
  { modes := fun _ => PinMode.INPUT, trace := [] }

/-! ## Arithmetic of the fixed-width model -/

theorem wrapInt_eq_self (k : Nat) (x : Int) (h1 : -(2 ^ k) ≤ x) (h2 : x < 2 ^ k) :
    wrapInt (k + 1) x = x := by
  unfold wrapInt
  have hp : (2 : Int) ^ (k + 1) = 2 * 2 ^ k := by ring
  have hk : (k + 1 - 1 : Nat) = k := by omega
  rw [hk, hp, Int.emod_eq_of_lt (by linarith) (by linarith)]
  ring

theorem two_pow_ge (w : Nat) (hw : 16 ≤ w) : (32768 : Int) ≤ 2 ^ (w - 1) := by
  have h : (2 : Int) ^ 15 ≤ 2 ^ (w - 1) :=
    pow_le_pow_right₀ (by norm_num) (by omega)
  norm_num at h
  exact h

theorem wrapInt_small (w : Nat) (hw : 16 ≤ w) (x : Int) (h1 : -32768 ≤ x) (h2 : x < 32768) :
    wrapInt w x = x := by
  obtain ⟨k, rfl⟩ : ∃ k, w = k + 1 := ⟨w - 1, by omega⟩
  have h := two_pow_ge (k + 1) hw
  simp only [Nat.add_sub_cancel] at h
  exact wrapInt_eq_self k x (by linarith) (by linarith)

theorem wrapInt_16_neg_min (w : Nat) (hw : 16 ≤ w) :
    wrapInt 16 (wrapInt w 32768) = -32768 := by
  rcases Nat.eq_or_lt_of_le hw with h | h
  · subst h; decide
  · obtain ⟨k, rfl⟩ : ∃ k, w = k + 1 := ⟨w - 1, by omega⟩
    have hk : (65536 : Int) ≤ 2 ^ k := by
      have h2 : (2 : Int) ^ 16 ≤ 2 ^ k := pow_le_pow_right₀ (by norm_num) (by omega)
      norm_num at h2
      exact h2
    rw [wrapInt_eq_self k 32768 (by linarith) (by linarith)]
    decide

namespace Motor

theorem normalize_of_nonneg (w : Nat) (d : Int) (h : 0 ≤ d) : normalize w d = (d, false) := by
  unfold normalize
  rw [if_neg (by omega)]

theorem normalize_of_neg (w : Nat) (hw : 16 ≤ w) (d : Int) (h1 : -32767 ≤ d) (h2 : d < 0) :
    normalize w d = (-d, true) := by
  unfold normalize
  rw [if_pos h2]
  have e : d * -1 = -d := by ring
  rw [e, wrapInt_small w hw (-d) (by omega) (by omega),
    wrapInt_small 16 (le_refl 16) (-d) (by omega) (by omega)]

theorem normalize_min (w : Nat) (hw : 16 ≤ w) : normalize w (-32768) = (-32768, true) := by
  unfold normalize
  rw [if_pos (by decide)]
  have e : (-32768 : Int) * -1 = 32768 := by decide
  rw [e, wrapInt_16_neg_min w hw]

theorem normalize_snd (w : Nat) (d : Int) : (normalize w d).2 = decide (d < 0) := by
  unfold normalize
  by_cases h : d < 0 <;> simp [h]

theorem scale_of_range (w : Nat) (hw : 16 ≤ w) (x : Int) (h1 : 0 ≤ x) (h2 : x ≤ 100) :
    scale w x = x * 255 / 100 := by
  unfold scale
  rw [wrapInt_small w hw (x * 255) (by omega) (by omega),
    Int.tdiv_eq_ediv (by omega) (by decide)]
  exact wrapInt_small w hw _ (by omega) (by omega)

theorem magnitude_of_nonneg (w : Nat) (d : Int) (h : 0 ≤ d) :
    magnitude w d = min d 100 := by
  unfold magnitude saturate
  rw [normalize_of_nonneg w d h]
  simp only
  split <;> omega

theorem magnitude_of_neg (w : Nat) (hw : 16 ≤ w) (d : Int) (h1 : -32767 ≤ d) (h2 : d < 0) :
    magnitude w d = min (-d) 100 := by
  unfold magnitude saturate
  rw [normalize_of_neg w hw d h1 h2]
  simp only
  split <;> omega

theorem magnitude_of_abs_le (w : Nat) (hw : 16 ≤ w) (d : Int) (h1 : -100 ≤ d) (h2 : d ≤ 100) :
    magnitude w d = |d| := by
  rcases lt_or_le d 0 with h | h
  · rw [magnitude_of_neg w hw d (by omega) h, abs_of_neg h]
    omega
  · rw [magnitude_of_nonneg w d h, abs_of_nonneg h]
    omega

theorem magnitude_min (w : Nat) (hw : 16 ≤ w) : magnitude w (-32768) = -32768 := by
  unfold magnitude saturate
  rw [normalize_min w hw]
  decide

/-- Away from the minimum `-32768` the working magnitude is `min |d| 100`. -/
theorem magnitude_of_gt_min (w : Nat) (hw : 16 ≤ w) (d : Int) (h1 : -32767 ≤ d) :
    magnitude w d = min |d| 100 := by
  rcases lt_or_le d 0 with h | h
  · rw [magnitude_of_neg w hw d h1 h, abs_of_neg h]
  · rw [magnitude_of_nonneg w d h, abs_of_nonneg h]

/-- Away from the minimum `-32768` the magnitude is in `[0, 100]` and the PWM value in `[0, 255]`. -/
theorem magnitude_scale_range (w : Nat) (hw : 16 ≤ w) (d : Int) (h1 : -32767 ≤ d) :
    (0 ≤ magnitude w d ∧ magnitude w d ≤ 100) ∧
    (0 ≤ scale w (magnitude w d) ∧ scale w (magnitude w d) ≤ 255) := by
  have hm : 0 ≤ magnitude w d ∧ magnitude w d ≤ 100 := by
    rw [magnitude_of_gt_min w hw d h1]
    have := abs_nonneg d
    omega
  refine ⟨hm, ?_⟩
  rw [scale_of_range w hw _ hm.1 hm.2]
  omega

/-- The hardware calls of one `setDutyCycle`, in terms of the intermediate values. -/
theorem setDutyCycle_trace (w : Nat) (m : Motor) (hw : Hardware) (d : Int) :
    (setDutyCycle w m hw d).2.trace = hw.trace ++
      [HwCall.analogWrite m.PWM (scale w (magnitude w d)),
       HwCall.digitalWrite m.INA
         (if magnitude w d = 0 then Level.LOW
          else if (normalize w d).2 then Level.LOW else Level.HIGH),
       HwCall.digitalWrite m.INB
         (if magnitude w d = 0 then Level.LOW
          else if (normalize w d).2 then Level.HIGH else Level.LOW)] := by
  unfold setDutyCycle magnitude
  by_cases h0 : saturate (normalize w d).1 = 0
  · simp [h0, analogWrite, digitalWrite]
  · by_cases hn : (normalize w d).2 = true
    · simp [h0, hn, analogWrite, digitalWrite]
    · simp [h0, hn, analogWrite, digitalWrite]

theorem issued_of_trace (hw hw2 : Hardware) (l : List HwCall) (h : hw2.trace = hw.trace ++ l) :
    issued hw hw2 = l := by
  unfold issued
  rw [h, List.drop_left]

theorem setDutyCycle_issued (w : Nat) (m : Motor) (hw : Hardware) (d : Int) :
    issued hw (setDutyCycle w m hw d).2 =
      [HwCall.analogWrite m.PWM (scale w (magnitude w d)),
       HwCall.digitalWrite m.INA
         (if magnitude w d = 0 then Level.LOW
          else if (normalize w d).2 then Level.LOW else Level.HIGH),
       HwCall.digitalWrite m.INB
         (if magnitude w d = 0 then Level.LOW
          else if (normalize w d).2 then Level.HIGH else Level.LOW)] :=
  issued_of_trace _ _ _ (setDutyCycle_trace w m hw d)

theorem setDutyCycle_modes (w : Nat) (m : Motor) (hw : Hardware) (d : Int) :
    (setDutyCycle w m hw d).2.modes = hw.modes := by
  unfold setDutyCycle
  simp only
  split
  · rfl
  · split <;> rfl

theorem setDutyCycle_fst (w : Nat) (m : Motor) (hw : Hardware) (d : Int) :
    (setDutyCycle w m hw d).1 = { m with negative := (normalize w d).2 } := by
  unfold setDutyCycle
  simp only
  split
  · rfl
  · split <;> rfl

end Motor

/-! ## Duty-cycle scaling and saturation -/

/-- C1: for every integer `d` with `-100 ≤ d ≤ 100`, `setDutyCycle(d)` issues an
`analogWrite` on the PWM pin with the value `floor(|d| * 255 / 100)` (followed
by the two direction writes). -/
theorem setDutyCycle_pwm_floor (intBits : Nat) (hbits : 16 ≤ intBits) (m : Motor)
    (hw : Hardware) (d : Int) (h1 : -100 ≤ d) (h2 : d ≤ 100) :
    ∃ a b, issued hw (m.setDutyCycle intBits hw d).2 =
      [HwCall.analogWrite m.PWM ⌊((|d| * 255 : Int) : ℚ) / ((100 : Nat) : ℚ)⌋,
       HwCall.digitalWrite m.INA a, HwCall.digitalWrite m.INB b] := by
  have h := Motor.setDutyCycle_issued intBits m hw d
  rw [Motor.magnitude_of_abs_le intBits hbits d h1 h2,
    Motor.scale_of_range intBits hbits |d| (abs_nonneg d) (abs_le.mpr ⟨h1, h2⟩)] at h
  rw [Rat.floor_intCast_div_natCast, Nat.cast_ofNat]
  exact ⟨_, _, h⟩

theorem setDutyCycle_pwm_floor_witness :
    16 ≤ 16 ∧ (-100 : Int) ≤ -50 ∧ (-50 : Int) ≤ 100 ∧
    ∃ a b, issued Hardware.reset
        (Motor.setDutyCycle 16 ⟨2, 4, 9, false⟩ Hardware.reset (-50)).2 =
      [HwCall.analogWrite 9 ⌊((|(-50)| * 255 : Int) : ℚ) / ((100 : Nat) : ℚ)⌋,
       HwCall.digitalWrite 2 a, HwCall.digitalWrite 4 b] :=
  ⟨by decide, by decide, by decide,
    setDutyCycle_pwm_floor 16 (by decide) ⟨2, 4, 9, false⟩ Hardware.reset (-50)
      (by decide) (by decide)⟩

/-- C2: evaluation at the failing input `d = -32768`. The negation wraps back to
`-32768`, which the saturation test `dutyCycle > 100` lets through, so the
PWM value is `-327` when `int` has 16 bits and `-83558` when it has 32 bits,
whereas `setDutyCycle(-100)` writes `255`. -/
theorem setDutyCycle_min_differs_from_saturated (m : Motor) (hw : Hardware) :
    issued hw (m.setDutyCycle 16 hw (-32768)).2 =
      [HwCall.analogWrite m.PWM (-327),
       HwCall.digitalWrite m.INA Level.LOW, HwCall.digitalWrite m.INB Level.HIGH] ∧
    issued hw (m.setDutyCycle 32 hw (-32768)).2 =
      [HwCall.analogWrite m.PWM (-83558),
       HwCall.digitalWrite m.INA Level.LOW, HwCall.digitalWrite m.INB Level.HIGH] ∧
    issued hw (m.setDutyCycle 16 hw (-100)).2 =
      [HwCall.analogWrite m.PWM 255,
       HwCall.digitalWrite m.INA Level.LOW, HwCall.digitalWrite m.INB Level.HIGH] ∧
    issued hw (m.setDutyCycle 32 hw (-100)).2 =
      [HwCall.analogWrite m.PWM 255,
       HwCall.digitalWrite m.INA Level.LOW, HwCall.digitalWrite m.INB Level.HIGH] := by
  have a1 : Motor.magnitude 16 (-32768) = -32768 := by decide
  have a2 : Motor.magnitude 32 (-32768) = -32768 := by decide
  have a3 : Motor.magnitude 16 (-100) = 100 := by decide
  have a4 : Motor.magnitude 32 (-100) = 100 := by decide
  have b1 : Motor.scale 16 (-32768) = -327 := by decide
  have b2 : Motor.scale 32 (-32768) = -83558 := by decide
  have b3 : Motor.scale 16 100 = 255 := by decide
  have b4 : Motor.scale 32 100 = 255 := by decide
  refine ⟨?_, ?_, ?_, ?_⟩ <;>
    simp [Motor.setDutyCycle_issued, Motor.normalize_snd, a1, a2, a3, a4, b1, b2, b3, b4]

/-- C3: evaluation at the failing input `d = -32768`. After sign extraction and
saturation the working magnitude is `-32768`, outside `[0, 100]`, and the value
handed to `analogWrite` on the PWM pin is `-327` (16-bit `int`) or `-83558`
(32-bit `int`), outside `[0, 255]`. -/
theorem setDutyCycle_min_out_of_range (m : Motor) (hw : Hardware) :
    Motor.magnitude 16 (-32768) = -32768 ∧ Motor.magnitude 32 (-32768) = -32768 ∧
    (∃ a b, issued hw (m.setDutyCycle 16 hw (-32768)).2 =
      [HwCall.analogWrite m.PWM (-327),
       HwCall.digitalWrite m.INA a, HwCall.digitalWrite m.INB b]) ∧
    (∃ a b, issued hw (m.setDutyCycle 32 hw (-32768)).2 =
      [HwCall.analogWrite m.PWM (-83558),
       HwCall.digitalWrite m.INA a, HwCall.digitalWrite m.INB b]) := by
  have a1 : Motor.magnitude 16 (-32768) = -32768 := by decide
  have a2 : Motor.magnitude 32 (-32768) = -32768 := by decide
  have b1 : Motor.scale 16 (-32768) = -327 := by decide
  have b2 : Motor.scale 32 (-32768) = -83558 := by decide
  refine ⟨a1, a2, ⟨Level.LOW, Level.HIGH, ?_⟩, ⟨Level.LOW, Level.HIGH, ?_⟩⟩ <;>
    simp [Motor.setDutyCycle_issued, Motor.normalize_snd, a1, a2, b1, b2]

/-! ## Direction lines -/

/-- C4: for every `x > 0`, `setDutyCycle(x)` writes INA `HIGH` and then INB `LOW`
(after the PWM write). -/
theorem setDutyCycle_pos_direction (intBits : Nat) (m : Motor) (hw : Hardware) (x : Int)
    (hx : 0 < x) :
    ∃ v, issued hw (m.setDutyCycle intBits hw x).2 =
      [HwCall.analogWrite m.PWM v,
       HwCall.digitalWrite m.INA Level.HIGH, HwCall.digitalWrite m.INB Level.LOW] := by
  refine ⟨Motor.scale intBits (Motor.magnitude intBits x), ?_⟩
  have h0 : Motor.magnitude intBits x ≠ 0 := by
    rw [Motor.magnitude_of_nonneg intBits x (le_of_lt hx)]
    omega
  have hn : ¬ x < 0 := by omega
  rw [Motor.setDutyCycle_issued]
  simp [h0, Motor.normalize_snd, hn]

theorem setDutyCycle_pos_direction_witness :
    (0 : Int) < 32767 ∧
    ∃ v, issued Hardware.reset
        (Motor.setDutyCycle 16 ⟨2, 4, 9, true⟩ Hardware.reset 32767).2 =
      [HwCall.analogWrite 9 v,
       HwCall.digitalWrite 2 Level.HIGH, HwCall.digitalWrite 4 Level.LOW] :=
  ⟨by decide,
    setDutyCycle_pos_direction 16 ⟨2, 4, 9, true⟩ Hardware.reset 32767 (by decide)⟩

/-- C5: for every 16-bit `x < 0`, the minimum `-32768` included,
`setDutyCycle(x)` writes INA `LOW` and then INB `HIGH` (after the PWM write). -/
theorem setDutyCycle_neg_direction (intBits : Nat) (hbits : 16 ≤ intBits) (m : Motor)
    (hw : Hardware) (x : Int) (hmin : -32768 ≤ x) (hx : x < 0) :
    ∃ v, issued hw (m.setDutyCycle intBits hw x).2 =
      [HwCall.analogWrite m.PWM v,
       HwCall.digitalWrite m.INA Level.LOW, HwCall.digitalWrite m.INB Level.HIGH] := by
  refine ⟨Motor.scale intBits (Motor.magnitude intBits x), ?_⟩
  have h0 : Motor.magnitude intBits x ≠ 0 := by
    rcases eq_or_lt_of_le hmin with h | h
    · rw [← h, Motor.magnitude_min intBits hbits]
      decide
    · rw [Motor.magnitude_of_neg intBits hbits x (by omega) hx]
      omega
  rw [Motor.setDutyCycle_issued]
  simp [h0, Motor.normalize_snd, hx]

theorem setDutyCycle_neg_direction_witness :
    16 ≤ 16 ∧ (-32768 : Int) ≤ -32768 ∧ (-32768 : Int) < 0 ∧
    ∃ v, issued Hardware.reset
        (Motor.setDutyCycle 16 ⟨2, 4, 9, false⟩ Hardware.reset (-32768)).2 =
      [HwCall.analogWrite 9 v,
       HwCall.digitalWrite 2 Level.LOW, HwCall.digitalWrite 4 Level.HIGH] :=
  ⟨by decide, by decide, by decide,
    setDutyCycle_neg_direction 16 (by decide) ⟨2, 4, 9, false⟩ Hardware.reset (-32768)
      (by decide) (by decide)⟩

/-- C6: for every prior object state and hardware history, `setDutyCycle(0)`
writes `0` to the PWM pin and then `LOW` to INA and `LOW` to INB. -/
theorem setDutyCycle_zero_coasts (intBits : Nat) (hbits : 16 ≤ intBits) (m : Motor)
    (hw : Hardware) :
    issued hw (m.setDutyCycle intBits hw 0).2 =
      [HwCall.analogWrite m.PWM 0,
       HwCall.digitalWrite m.INA Level.LOW, HwCall.digitalWrite m.INB Level.LOW] := by
  have h0 : Motor.magnitude intBits 0 = 0 := by
    rw [Motor.magnitude_of_nonneg intBits 0 (le_refl 0)]
    decide
  have hs : Motor.scale intBits 0 = 0 := by
    rw [Motor.scale_of_range intBits hbits 0 (le_refl 0) (by decide)]
    decide
  rw [Motor.setDutyCycle_issued, h0, hs]
  simp

theorem setDutyCycle_zero_coasts_witness :
    16 ≤ 16 ∧
    issued (Motor.setDutyCycle 16 ⟨2, 4, 9, false⟩ Hardware.reset (-70)).2
        (Motor.setDutyCycle 16 ⟨2, 4, 9, true⟩
          (Motor.setDutyCycle 16 ⟨2, 4, 9, false⟩ Hardware.reset (-70)).2 0).2 =
      [HwCall.analogWrite 9 0,
       HwCall.digitalWrite 2 Level.LOW, HwCall.digitalWrite 4 Level.LOW] :=
  ⟨by decide,
    setDutyCycle_zero_coasts 16 (by decide) ⟨2, 4, 9, true⟩
      (Motor.setDutyCycle 16 ⟨2, 4, 9, false⟩ Hardware.reset (-70)).2⟩

/-! ## Hardware writes per call -/

/-- C7: for every argument `d` and every prior state, one call of
`setDutyCycle(d)` appends exactly three calls to the hardware log, in this
order: an `analogWrite` on PWM, a `digitalWrite` on INA, a `digitalWrite` on
INB. Nothing depends on the earlier log, so no write is ever suppressed. -/
theorem setDutyCycle_appends_three_writes (intBits : Nat) (m : Motor) (hw : Hardware)
    (d : Int) :
    ∃ v a b, (m.setDutyCycle intBits hw d).2.trace = hw.trace ++
      [HwCall.analogWrite m.PWM v, HwCall.digitalWrite m.INA a,
       HwCall.digitalWrite m.INB b] :=
  ⟨Motor.scale intBits (Motor.magnitude intBits d),
    if Motor.magnitude intBits d = 0 then Level.LOW
      else if (Motor.normalize intBits d).2 then Level.LOW else Level.HIGH,
    if Motor.magnitude intBits d = 0 then Level.LOW
      else if (Motor.normalize intBits d).2 then Level.HIGH else Level.LOW,
    Motor.setDutyCycle_trace intBits m hw d⟩

/-- C8: the calls issued by `setDutyCycle(d)` depend only on `d` and the three
pin identifiers: two objects that agree on INA, INB and PWM issue the same
calls from any two hardware states, whatever their `negative` flags; and a
second `setDutyCycle(d)` right after the first issues the same calls again. -/
theorem setDutyCycle_writes_ignore_flag (intBits : Nat) (m1 m2 : Motor)
    (hw1 hw2 : Hardware) (d : Int)
    (hA : m1.INA = m2.INA) (hB : m1.INB = m2.INB) (hP : m1.PWM = m2.PWM) :
    issued hw1 (m1.setDutyCycle intBits hw1 d).2 =
      issued hw2 (m2.setDutyCycle intBits hw2 d).2 ∧
    issued (m1.setDutyCycle intBits hw1 d).2
        ((m1.setDutyCycle intBits hw1 d).1.setDutyCycle intBits
          (m1.setDutyCycle intBits hw1 d).2 d).2 =
      issued hw1 (m1.setDutyCycle intBits hw1 d).2 := by
  constructor
  · rw [Motor.setDutyCycle_issued, Motor.setDutyCycle_issued, hA, hB, hP]
  · rw [Motor.setDutyCycle_issued, Motor.setDutyCycle_issued, Motor.setDutyCycle_fst]

theorem setDutyCycle_writes_ignore_flag_witness :
    (2 : Int) = 2 ∧ (4 : Int) = 4 ∧ (9 : Int) = 9 ∧
    issued Hardware.reset (Motor.setDutyCycle 16 ⟨2, 4, 9, false⟩ Hardware.reset (-32768)).2 =
      issued (Motor.begin ⟨2, 4, 9, true⟩ Hardware.reset).2
        (Motor.setDutyCycle 16 ⟨2, 4, 9, true⟩
          (Motor.begin ⟨2, 4, 9, true⟩ Hardware.reset).2 (-32768)).2 ∧
    issued (Motor.setDutyCycle 16 ⟨2, 4, 9, false⟩ Hardware.reset (-32768)).2
        (Motor.setDutyCycle 16
          (Motor.setDutyCycle 16 ⟨2, 4, 9, false⟩ Hardware.reset (-32768)).1
          (Motor.setDutyCycle 16 ⟨2, 4, 9, false⟩ Hardware.reset (-32768)).2 (-32768)).2 =
      issued Hardware.reset
        (Motor.setDutyCycle 16 ⟨2, 4, 9, false⟩ Hardware.reset (-32768)).2 :=
  ⟨rfl, rfl, rfl,
    setDutyCycle_writes_ignore_flag 16 ⟨2, 4, 9, false⟩ ⟨2, 4, 9, true⟩ Hardware.reset
      (Motor.begin ⟨2, 4, 9, true⟩ Hardware.reset).2 (-32768) rfl rfl rfl⟩

/-! ## Pin configuration -/

/-- C9: `begin()` leaves the object unchanged, and `setDutyCycle(d)` leaves INA,
INB and PWM unchanged for every state and argument: it replaces only the
`negative` flag of the object and only extends the log of the hardware. -/
theorem pins_fixed_after_construction (intBits : Nat) (m : Motor) (hw : Hardware) (d : Int) :
    ((m.begin hw).1.INA = m.INA ∧ (m.begin hw).1.INB = m.INB ∧
      (m.begin hw).1.PWM = m.PWM) ∧
    ((m.setDutyCycle intBits hw d).1.INA = m.INA ∧
      (m.setDutyCycle intBits hw d).1.INB = m.INB ∧
      (m.setDutyCycle intBits hw d).1.PWM = m.PWM) ∧
    (∃ b, (m.setDutyCycle intBits hw d).1 = { m with negative := b }) ∧
    (m.setDutyCycle intBits hw d).2.modes = hw.modes ∧
    (∃ l, (m.setDutyCycle intBits hw d).2.trace = hw.trace ++ l) := by
  refine ⟨⟨rfl, rfl, rfl⟩, ?_, ⟨_, Motor.setDutyCycle_fst intBits m hw d⟩,
    Motor.setDutyCycle_modes intBits m hw d, ⟨_, Motor.setDutyCycle_trace intBits m hw d⟩⟩
  rw [Motor.setDutyCycle_fst]
  exact ⟨rfl, rfl, rfl⟩

/-- C10: `begin()` issues exactly three calls, `pinMode(INA, OUTPUT)`,
`pinMode(INB, OUTPUT)` and `pinMode(PWM, OUTPUT)` (so no digital or analog
write); afterwards INA, INB and PWM are outputs and every other pin keeps its
mode; and the pin modes after a second `begin()` equal those after the first. -/
theorem begin_configures_outputs_idempotent (m : Motor) (hw : Hardware) :
    issued hw (m.begin hw).2 =
      [HwCall.pinMode m.INA PinMode.OUTPUT, HwCall.pinMode m.INB PinMode.OUTPUT,
       HwCall.pinMode m.PWM PinMode.OUTPUT] ∧
    (∀ p, (m.begin hw).2.modes p =
      if p = m.INA ∨ p = m.INB ∨ p = m.PWM then PinMode.OUTPUT else hw.modes p) ∧
    ((m.begin hw).1.begin (m.begin hw).2).2.modes = (m.begin hw).2.modes := by
  refine ⟨?_, ?_, ?_⟩
  · apply Motor.issued_of_trace
    simp [Motor.begin, pinMode]
  · intro p
    simp only [Motor.begin, pinMode]
    by_cases h1 : p = m.PWM
    · simp [h1]
    · by_cases h2 : p = m.INB
      · simp [h1, h2]
      · by_cases h3 : p = m.INA
        · simp [h1, h2, h3]
        · simp [h1, h2, h3]
  · funext p
    simp only [Motor.begin, pinMode]
    by_cases h1 : p = m.PWM
    · simp [h1]
    · by_cases h2 : p = m.INB
      · simp [h1, h2]
      · by_cases h3 : p = m.INA
        · simp [h1, h2, h3]
        · simp [h1, h2, h3]

/-! ## Construction and the stored flag -/

/-- C11: for all pin identifiers `a`, `b`, `p`, the constructor `Motor(a, b, p)`
yields an object whose INA, INB and PWM are `a`, `b` and `p`, and it leaves the
hardware untouched: no `pinMode`, `digitalWrite` or `analogWrite` is issued. -/
theorem constructor_stores_pins_without_hardware_access (a b p : Int) (negative : Bool)
    (hw : Hardware) :
    (Motor.Motor a b p negative hw).1.INA = a ∧
    (Motor.Motor a b p negative hw).1.INB = b ∧
    (Motor.Motor a b p negative hw).1.PWM = p ∧
    (Motor.Motor a b p negative hw).2 = hw ∧
    issued hw (Motor.Motor a b p negative hw).2 = [] := by
  refine ⟨rfl, rfl, rfl, rfl, ?_⟩
  apply Motor.issued_of_trace
  simp [Motor.Motor]

/-- C12: for every argument `d` and every prior state, the `negative` flag
stored after `setDutyCycle(d)` is true if and only if `d < 0`. -/
theorem setDutyCycle_negative_iff (intBits : Nat) (m : Motor) (hw : Hardware) (d : Int) :
    (m.setDutyCycle intBits hw d).1.negative = true ↔ d < 0 := by
  rw [Motor.setDutyCycle_fst, Motor.normalize_snd]
  simp

/-- C13: for every argument `d` and every prior state, the levels written to
(INA, INB) by `setDutyCycle(d)` are (LOW, LOW), (LOW, HIGH) or (HIGH, LOW),
never (HIGH, HIGH). -/
theorem setDutyCycle_never_both_high (intBits : Nat) (m : Motor) (hw : Hardware) (d : Int) :
    ∃ v a b, issued hw (m.setDutyCycle intBits hw d).2 =
        [HwCall.analogWrite m.PWM v, HwCall.digitalWrite m.INA a,
         HwCall.digitalWrite m.INB b] ∧
      ((a = Level.LOW ∧ b = Level.LOW) ∨ (a = Level.LOW ∧ b = Level.HIGH) ∨
        (a = Level.HIGH ∧ b = Level.LOW)) ∧
      ¬ (a = Level.HIGH ∧ b = Level.HIGH) := by
  refine ⟨_, _, _, Motor.setDutyCycle_issued intBits m hw d, ?_, ?_⟩
  · by_cases h0 : Motor.magnitude intBits d = 0
    · simp [h0]
    · by_cases hn : (Motor.normalize intBits d).2 = true
      · simp [h0, hn]
      · simp [h0, hn]
  · by_cases h0 : Motor.magnitude intBits d = 0
    · simp [h0]
    · by_cases hn : (Motor.normalize intBits d).2 = true
      · simp [h0, hn]
      · simp [h0, hn]

/-! ## PWM level as a function of the request -/

/-- At the minimum `-32768` the scaled value is non-zero for every width of `int`. -/
theorem Motor.scale_min_ne_zero (w : Nat) (hw : 16 ≤ w) : Motor.scale w (-32768) ≠ 0 := by
  rcases Nat.lt_or_ge w 24 with h | h
  · interval_cases w <;> decide
  · obtain ⟨k, rfl⟩ : ∃ k, w = k + 1 := ⟨w - 1, by omega⟩
    have hk : (8388608 : Int) ≤ 2 ^ k := by
      have h2 : (2 : Int) ^ 23 ≤ 2 ^ k := pow_le_pow_right₀ (by norm_num) (by omega)
      norm_num at h2
      exact h2
    unfold Motor.scale
    have e : (-32768 : Int) * 255 = -8355840 := by decide
    have e2 : Int.tdiv (-8355840) 100 = -83558 := by decide
    rw [e, wrapInt_eq_self k (-8355840) (by linarith) (by linarith), e2,
      wrapInt_eq_self k (-83558) (by linarith) (by linarith)]
    decide

/-- Away from the minimum `-32768` the PWM value is `min |d| 100 * 255 / 100`. -/
theorem Motor.scale_magnitude (w : Nat) (hw : 16 ≤ w) (d : Int) (h1 : -32767 ≤ d) :
    Motor.scale w (Motor.magnitude w d) = min |d| 100 * 255 / 100 := by
  have hr := (Motor.magnitude_scale_range w hw d h1).1
  rw [Motor.scale_of_range w hw _ hr.1 hr.2, Motor.magnitude_of_gt_min w hw d h1]

/-- The working magnitude of a 16-bit request is zero only for the request zero. -/
theorem Motor.magnitude_eq_zero_iff (w : Nat) (hw : 16 ≤ w) (d : Int) (hmin : -32768 ≤ d) :
    Motor.magnitude w d = 0 ↔ d = 0 := by
  rcases eq_or_lt_of_le hmin with h | h
  · rw [← h, Motor.magnitude_min w hw]
  · rw [Motor.magnitude_of_gt_min w hw d (by omega)]
    rcases abs_cases d with ⟨e, _⟩ | ⟨e, _⟩ <;> rw [e] <;> omega

/-- The PWM value of a 16-bit request is zero only for the request zero. -/
theorem Motor.scale_eq_zero_iff (w : Nat) (hw : 16 ≤ w) (d : Int) (hmin : -32768 ≤ d) :
    Motor.scale w (Motor.magnitude w d) = 0 ↔ d = 0 := by
  rcases eq_or_lt_of_le hmin with h | h
  · rw [← h, Motor.magnitude_min w hw]
    constructor
    · intro h0
      exact absurd h0 (Motor.scale_min_ne_zero w hw)
    · intro h0
      exact absurd h0 (by decide)
  · rw [Motor.scale_magnitude w hw d (by omega)]
    rcases abs_cases d with ⟨e, _⟩ | ⟨e, _⟩ <;> rw [e] <;> omega

/-- C14: for every `d` from `-32768` upwards (so for every 16-bit `d`), the value `setDutyCycle(d)` writes to the PWM pin
is `0` if and only if `d = 0`, and `d = 0` if and only if both direction lines
are written `LOW`; so every non-zero request gets a non-zero PWM level. -/
theorem setDutyCycle_pwm_zero_iff_coast (intBits : Nat) (hbits : 16 ≤ intBits) (m : Motor)
    (hw : Hardware) (d : Int) (hmin : -32768 ≤ d) :
    ∃ v a b, issued hw (m.setDutyCycle intBits hw d).2 =
        [HwCall.analogWrite m.PWM v, HwCall.digitalWrite m.INA a,
         HwCall.digitalWrite m.INB b] ∧
      (v = 0 ↔ d = 0) ∧ (d = 0 ↔ (a = Level.LOW ∧ b = Level.LOW)) := by
  refine ⟨_, _, _, Motor.setDutyCycle_issued intBits m hw d,
    Motor.scale_eq_zero_iff intBits hbits d hmin, ?_⟩
  have hm := Motor.magnitude_eq_zero_iff intBits hbits d hmin
  by_cases h0 : Motor.magnitude intBits d = 0
  · have hd : d = 0 := hm.mp h0
    subst hd
    simp [h0]
  · have hd : d ≠ 0 := fun e => h0 (hm.mpr e)
    by_cases hn : (Motor.normalize intBits d).2 = true
    · simp [h0, hn, hd]
    · simp [h0, hn, hd]

theorem setDutyCycle_pwm_zero_iff_coast_witness :
    16 ≤ 16 ∧ (-32768 : Int) ≤ -1 ∧
    ∃ v a b, issued Hardware.reset
        (Motor.setDutyCycle 16 ⟨2, 4, 9, false⟩ Hardware.reset (-1)).2 =
        [HwCall.analogWrite 9 v, HwCall.digitalWrite 2 a, HwCall.digitalWrite 4 b] ∧
      (v = 0 ↔ (-1 : Int) = 0) ∧ ((-1 : Int) = 0 ↔ (a = Level.LOW ∧ b = Level.LOW)) :=
  ⟨by decide, by decide,
    setDutyCycle_pwm_zero_iff_coast 16 (by decide) ⟨2, 4, 9, false⟩ Hardware.reset (-1)
      (by decide)⟩

/-- C15: for every `d` with `1 ≤ d ≤ 32767`, `setDutyCycle(-d)` writes the same
PWM value as `setDutyCycle(d)` and writes the two direction lines with the
levels exchanged: INA gets what INB got and INB gets what INA got. -/
theorem setDutyCycle_neg_mirrors_pos (intBits : Nat) (hbits : 16 ≤ intBits) (m : Motor)
    (hw : Hardware) (d : Int) (h1 : 1 ≤ d) (h2 : d ≤ 32767) :
    ∃ v a b, a ≠ b ∧
      issued hw (m.setDutyCycle intBits hw d).2 =
        [HwCall.analogWrite m.PWM v, HwCall.digitalWrite m.INA a,
         HwCall.digitalWrite m.INB b] ∧
      issued hw (m.setDutyCycle intBits hw (-d)).2 =
        [HwCall.analogWrite m.PWM v, HwCall.digitalWrite m.INA b,
         HwCall.digitalWrite m.INB a] := by
  have hp : Motor.magnitude intBits d = min d 100 :=
    Motor.magnitude_of_nonneg intBits d (by omega)
  have hn : Motor.magnitude intBits (-d) = min d 100 := by
    rw [Motor.magnitude_of_neg intBits hbits (-d) (by omega) (by omega), neg_neg]
  have h0 : min d 100 ≠ 0 := by omega
  have e1 : ¬ d < 0 := by omega
  have e2 : 0 < d := by omega
  refine ⟨Motor.scale intBits (min d 100), Level.HIGH, Level.LOW, by decide, ?_, ?_⟩
  · rw [Motor.setDutyCycle_issued, hp]
    simp [h0, Motor.normalize_snd, e1]
  · rw [Motor.setDutyCycle_issued, hn]
    simp [h0, Motor.normalize_snd, e2]

theorem setDutyCycle_neg_mirrors_pos_witness :
    16 ≤ 16 ∧ (1 : Int) ≤ 32767 ∧ (32767 : Int) ≤ 32767 ∧
    ∃ v a b, a ≠ b ∧
      issued Hardware.reset
          (Motor.setDutyCycle 16 ⟨2, 4, 9, false⟩ Hardware.reset 32767).2 =
        [HwCall.analogWrite 9 v, HwCall.digitalWrite 2 a, HwCall.digitalWrite 4 b] ∧
      issued Hardware.reset
          (Motor.setDutyCycle 16 ⟨2, 4, 9, false⟩ Hardware.reset (-32767)).2 =
        [HwCall.analogWrite 9 v, HwCall.digitalWrite 2 b, HwCall.digitalWrite 4 a] :=
  ⟨by decide, by decide, by decide,
    setDutyCycle_neg_mirrors_pos 16 (by decide) ⟨2, 4, 9, false⟩ Hardware.reset 32767
      (by decide) (by decide)⟩

/-- C16: for all `a`, `b` with `0 ≤ a ≤ b ≤ 32767`, the PWM value written by
`setDutyCycle(a)` is at most the PWM value written by `setDutyCycle(b)`, and
the PWM value of a request is `255` exactly when the request is at least `100`. -/
theorem setDutyCycle_pwm_monotone (intBits : Nat) (hbits : 16 ≤ intBits) (m : Motor)
    (hw : Hardware) (a b : Int) (ha : 0 ≤ a) (hab : a ≤ b) (hb : b ≤ 32767) :
    ∃ va vb la lb ma mb,
      issued hw (m.setDutyCycle intBits hw a).2 =
        [HwCall.analogWrite m.PWM va, HwCall.digitalWrite m.INA la,
         HwCall.digitalWrite m.INB lb] ∧
      issued hw (m.setDutyCycle intBits hw b).2 =
        [HwCall.analogWrite m.PWM vb, HwCall.digitalWrite m.INA ma,
         HwCall.digitalWrite m.INB mb] ∧
      va ≤ vb ∧ (va = 255 ↔ 100 ≤ a) ∧ (vb = 255 ↔ 100 ≤ b) := by
  have hsa := Motor.scale_magnitude intBits hbits a (by omega)
  have hsb := Motor.scale_magnitude intBits hbits b (by omega)
  rw [abs_of_nonneg ha] at hsa
  rw [abs_of_nonneg (le_trans ha hab)] at hsb
  refine ⟨_, _, _, _, _, _, Motor.setDutyCycle_issued intBits m hw a,
    Motor.setDutyCycle_issued intBits m hw b, ?_, ?_, ?_⟩
  · rw [hsa, hsb]
    omega
  · rw [hsa]
    omega
  · rw [hsb]
    omega

theorem setDutyCycle_pwm_monotone_witness :
    16 ≤ 16 ∧ (0 : Int) ≤ 99 ∧ (99 : Int) ≤ 100 ∧ (100 : Int) ≤ 32767 ∧
    ∃ va vb la lb ma mb,
      issued Hardware.reset (Motor.setDutyCycle 16 ⟨2, 4, 9, false⟩ Hardware.reset 99).2 =
        [HwCall.analogWrite 9 va, HwCall.digitalWrite 2 la, HwCall.digitalWrite 4 lb] ∧
      issued Hardware.reset (Motor.setDutyCycle 16 ⟨2, 4, 9, false⟩ Hardware.reset 100).2 =
        [HwCall.analogWrite 9 vb, HwCall.digitalWrite 2 ma, HwCall.digitalWrite 4 mb] ∧
      va ≤ vb ∧ (va = 255 ↔ (100 : Int) ≤ 99) ∧ (vb = 255 ↔ (100 : Int) ≤ 100) :=
  ⟨by decide, by decide, by decide, by decide,
    setDutyCycle_pwm_monotone 16 (by decide) ⟨2, 4, 9, false⟩ Hardware.reset 99 100
      (by decide) (by decide) (by decide)⟩

/-- C17: for every `d` from `-32767` upwards (so for every 16-bit `d` other than
`-32768`), the product `dutyCycle * 255` formed after negation and saturation
lies in `[0, 25500]`, hence within the signed 16-bit range: it is unchanged by
wrapping to 16 bits or to the width of `int`, and the value written to the PWM
pin is the exact floor of `min |d| 100 * 255 / 100`. -/
theorem setDutyCycle_product_no_overflow (intBits : Nat) (hbits : 16 ≤ intBits)
    (m : Motor) (hw : Hardware) (d : Int) (h1 : -32767 ≤ d) :
    Motor.magnitude intBits d = min |d| 100 ∧
    (0 ≤ Motor.magnitude intBits d * 255 ∧ Motor.magnitude intBits d * 255 ≤ 25500) ∧
    (-(2 : Int) ^ 15 ≤ Motor.magnitude intBits d * 255 ∧
      Motor.magnitude intBits d * 255 ≤ 2 ^ 15 - 1) ∧
    wrapInt 16 (Motor.magnitude intBits d * 255) = Motor.magnitude intBits d * 255 ∧
    wrapInt intBits (Motor.magnitude intBits d * 255) = Motor.magnitude intBits d * 255 ∧
    Motor.scale intBits (Motor.magnitude intBits d) =
      ⌊((Motor.magnitude intBits d * 255 : Int) : ℚ) / ((100 : Nat) : ℚ)⌋ ∧
    ∃ a b, issued hw (m.setDutyCycle intBits hw d).2 =
      [HwCall.analogWrite m.PWM ⌊((min |d| 100 * 255 : Int) : ℚ) / ((100 : Nat) : ℚ)⌋,
       HwCall.digitalWrite m.INA a, HwCall.digitalWrite m.INB b] := by
  have hm := Motor.magnitude_of_gt_min intBits hbits d h1
  have hr := (Motor.magnitude_scale_range intBits hbits d h1).1
  have hs := Motor.scale_of_range intBits hbits _ hr.1 hr.2
  have hi := Motor.setDutyCycle_issued intBits m hw d
  rw [hs, hm] at hi
  refine ⟨hm, ⟨by omega, by omega⟩, ⟨by norm_num; omega, by norm_num; omega⟩,
    wrapInt_small 16 (le_refl 16) _ (by omega) (by omega),
    wrapInt_small intBits hbits _ (by omega) (by omega), ?_, ?_⟩
  · rw [hs, Rat.floor_intCast_div_natCast, Nat.cast_ofNat]
  · rw [Rat.floor_intCast_div_natCast, Nat.cast_ofNat]
    exact ⟨_, _, hi⟩

theorem setDutyCycle_product_no_overflow_witness :
    16 ≤ 16 ∧ (-32767 : Int) ≤ -32767 ∧
    Motor.magnitude 16 (-32767) = min |(-32767)| 100 ∧
    (0 ≤ Motor.magnitude 16 (-32767) * 255 ∧ Motor.magnitude 16 (-32767) * 255 ≤ 25500) ∧
    (-(2 : Int) ^ 15 ≤ Motor.magnitude 16 (-32767) * 255 ∧
      Motor.magnitude 16 (-32767) * 255 ≤ 2 ^ 15 - 1) ∧
    wrapInt 16 (Motor.magnitude 16 (-32767) * 255) = Motor.magnitude 16 (-32767) * 255 ∧
    wrapInt 16 (Motor.magnitude 16 (-32767) * 255) = Motor.magnitude 16 (-32767) * 255 ∧
    Motor.scale 16 (Motor.magnitude 16 (-32767)) =
      ⌊((Motor.magnitude 16 (-32767) * 255 : Int) : ℚ) / ((100 : Nat) : ℚ)⌋ ∧
    ∃ a b, issued Hardware.reset
        (Motor.setDutyCycle 16 ⟨2, 4, 9, false⟩ Hardware.reset (-32767)).2 =
      [HwCall.analogWrite 9 ⌊((min |(-32767)| 100 * 255 : Int) : ℚ) / ((100 : Nat) : ℚ)⌋,
       HwCall.digitalWrite 2 a, HwCall.digitalWrite 4 b] :=
  ⟨by decide, by decide,
    setDutyCycle_product_no_overflow 16 (by decide) ⟨2, 4, 9, false⟩ Hardware.reset
      (-32767) (by decide)⟩
